import Mathlib

/-!
Verification of the NabBot `cogs/tibia.py` module against its specification.

The development shallowly embeds the pieces of the module that the claims
concern:

* `scan_news` — the news-poller loop body (one iteration) from
  `src/cogs/tibia.py` lines 1912–1969, modelled as a pure function from the
  fetch outcome, the persisted-marker read and the article-detail fetcher to
  the sequence of observable events of that iteration.
* `stamina` — the stamina command's validation and resting-time arithmetic,
  lines 1141–1170.
* the `stats` command's level gate, lines 1230–1240.
* the `share` command's joint-range computation for 2–5 characters,
  lines 1110–1130, over a spec-modelled `get_share_range` (the band function
  itself lives in `utils.tibia`, outside this snapshot).
* the per-destination delivery loop of `scan_news`, lines 1947–1960.

Machine integers in the source are Python `int`s (unbounded), so they are
embedded as `Int`/`Nat` directly.
-/

namespace NabBot

/-- A feed item as returned by `get_recent_news`: its id and its age in days,
`(dt.date.today() - article["date"]).days` in the source. -/
structure FeedItem where
  id : Int
  ageDays : Int
  deriving Repr, DecidableEq

/-- An article as returned by `get_news_article` (only the id is relevant to
the claims; title/body feed the embed rendering only). -/
structure NewsArticle where
  id : Int
  deriving Repr, DecidableEq

/-- Outcome of reading `data/last_article.txt`: the file may be missing
(`FileNotFoundError`), hold text that does not parse as an integer
(`ValueError`), or hold an integer. -/
inductive MarkerRead where
  | missing
  | invalid
  | stored (n : Int)
  deriving Repr, DecidableEq

/-- Lines 1921–1926: `last_id` is the parsed file content, with both
exceptions mapped to `0`. -/
def readLastId : MarkerRead → Int
  | .missing => 0
  | .invalid => 0
  | .stored n => n

/-- The exception classes distinguished by the handlers at lines 1962–1969. -/
inductive Exc where
  | network
  | cancelled
  | other
  deriving Repr, DecidableEq

/-- Outcome of `await get_recent_news()`: an exception, `None`, or a feed
list (newest first). -/
inductive FetchResult where
  | raised (e : Exc)
  | noFeed
  | feed (items : List FeedItem)
  deriving Repr, DecidableEq

/-- Observable events of one `scan_news` iteration: writing the marker file,
announcing one article (the per-article block at lines 1947–1960), logging an
exception, and sleeping for a number of seconds. -/
inductive Event where
  | persistMarker (id : Int)
  | announce (id : Int)
  | logException
  | sleep (seconds : Nat)
  deriving Repr, DecidableEq

/-- Lines 1932–1941: walk the feed newest-first; stop at the first item whose
id equals `last_id` or whose age exceeds 7 days; fetch each remaining item's
detail and `insert(0, ...)` it (so the result is oldest-first), skipping items
whose detail fetch returns `None`. -/
def collectLoop (lastId : Int) (getNewsArticle : Int → Option NewsArticle) :
    List FeedItem → List NewsArticle → List NewsArticle
  | [], acc => acc
  | a :: rest, acc =>
    if a.id = lastId then acc
    else if 7 < a.ageDays then acc
    else
      match getNewsArticle a.id with
      | some art => collectLoop lastId getNewsArticle rest (art :: acc)
      | none => collectLoop lastId getNewsArticle rest acc

/-- Result of one loop iteration: the events it performs, and whether it
breaks out of the `while` loop. -/
structure IterResult where
  events : List Event
  stops : Bool
  deriving Repr, DecidableEq

/-- Lines 1920–1961, the body of the `try` once a non-empty feed is in hand:
seed the marker and sleep 2 h when `last_id == 0`; otherwise collect new
articles, write the marker file (lines 1942–1943, before the announce loop),
announce the collected articles oldest-first, and sleep 2 h. -/
def feedCycleEvents (first : FeedItem) (rest : List FeedItem)
    (marker : MarkerRead) (getNewsArticle : Int → Option NewsArticle) :
    List Event :=
  let lastArticle := first.id
  let lastId := readLastId marker
  if lastId = 0 then
    [.persistMarker lastArticle, .sleep 7200]
  else
    let newArticles := collectLoop lastId getNewsArticle (first :: rest) []
    if newArticles.isEmpty then
      [.persistMarker lastArticle, .sleep 7200]
    else
      .persistMarker lastArticle ::
        (newArticles.map (fun a => Event.announce a.id) ++ [.sleep 7200])

/-- One iteration of the `scan_news` loop (lines 1912–1969). A `None` feed
sleeps 30 s and retries; an empty feed list makes `recent_news[0]` raise,
which the blanket `except Exception` logs; `NetworkError` sleeps 30 s;
`asyncio.CancelledError` breaks the loop; any other exception is logged and
the loop continues with no sleep. -/
def scanNewsIteration (fetch : FetchResult) (marker : MarkerRead)
    (getNewsArticle : Int → Option NewsArticle) : IterResult :=
  match fetch with
  | .raised .network => ⟨[.sleep 30], false⟩
  | .raised .cancelled => ⟨[], true⟩
  | .raised .other => ⟨[.logException], false⟩
  | .noFeed => ⟨[.sleep 30], false⟩
  | .feed [] => ⟨[.logException], false⟩
  | .feed (first :: rest) =>
    ⟨feedCycleEvents first rest marker getNewsArticle, false⟩

/-- The ids announced by a sequence of events, in order. -/
def announcedIds (evs : List Event) : List Int :=
  evs.filterMap fun e =>
    match e with
    | .announce i => some i
    | _ => none

/-- The feed of the C1 scenario: newest-first, ids 6 (1 day old), 5 (2 days),
4 (9 days), 3 (10 days). -/
def feedC1 : List FeedItem := [⟨6, 1⟩, ⟨5, 2⟩, ⟨4, 9⟩, ⟨3, 10⟩]

/-- C1: with stored marker 3 and the feed `[{id 6, 1 d}, {id 5, 2 d}, {id 4, 9 d}, {id 3}]`
(newest first), one `scan_news` cycle announces exactly the articles with ids 5 and 6, in
that (oldest-first) order, and does not announce id 4: the collection walk stops at the
first item whose id equals the marker or whose age exceeds 7 days. -/
theorem scan_news_marker3_announces_5_then_6
    (getNewsArticle : Int → Option NewsArticle)
    (hid : ∀ i a, getNewsArticle i = some a → a.id = i)
    (h5 : (getNewsArticle 5).isSome) (h6 : (getNewsArticle 6).isSome) :
    announcedIds (scanNewsIteration (.feed feedC1) (.stored 3) getNewsArticle).events
      = [5, 6] := by
  obtain ⟨a5, ha5⟩ := Option.isSome_iff_exists.mp h5
  obtain ⟨a6, ha6⟩ := Option.isSome_iff_exists.mp h6
  have e5 := hid 5 a5 ha5
  have e6 := hid 6 a6 ha6
  simp [scanNewsIteration, feedC1, feedCycleEvents, readLastId, collectLoop, ha5, ha6,
    announcedIds, e5, e6]

/-- Witness for C1 at a concrete detail fetcher. -/
theorem scan_news_marker3_announces_5_then_6_witness :
    announcedIds (scanNewsIteration (.feed feedC1) (.stored 3)
      (fun i => some ⟨i⟩)).events = [5, 6] :=
  scan_news_marker3_announces_5_then_6 (fun i => some ⟨i⟩)
    (fun i a h => by injection h with h2; subst h2; rfl) rfl rfl

/-- C2: when the persisted marker is missing, unparsable or stored as 0, a cycle with a
non-empty feed writes the newest article's id as the new marker, announces nothing, and
continues the loop (does not stop). -/
theorem scan_news_seeds_marker_when_absent
    (first : FeedItem) (rest : List FeedItem) (marker : MarkerRead)
    (getNewsArticle : Int → Option NewsArticle)
    (h : readLastId marker = 0) :
    (scanNewsIteration (.feed (first :: rest)) marker getNewsArticle).events
        = [.persistMarker first.id, .sleep 7200]
      ∧ announcedIds (scanNewsIteration (.feed (first :: rest)) marker getNewsArticle).events
        = []
      ∧ (scanNewsIteration (.feed (first :: rest)) marker getNewsArticle).stops = false
      ∧ readLastId .missing = 0 ∧ readLastId .invalid = 0 ∧ readLastId (.stored 0) = 0 := by
  refine ⟨?_, ?_, rfl, rfl, rfl, rfl⟩ <;>
    simp [scanNewsIteration, feedCycleEvents, h, announcedIds]

/-- Witness for C2 with a missing marker file and the first-run feed `[5, 4, 3]`. -/
theorem scan_news_seeds_marker_when_absent_witness :
    (scanNewsIteration (.feed [⟨5, 0⟩, ⟨4, 0⟩, ⟨3, 0⟩]) .missing (fun _ => none)).events
        = [.persistMarker 5, .sleep 7200]
      ∧ announcedIds (scanNewsIteration (.feed [⟨5, 0⟩, ⟨4, 0⟩, ⟨3, 0⟩]) .missing
          (fun _ => none)).events = []
      ∧ (scanNewsIteration (.feed [⟨5, 0⟩, ⟨4, 0⟩, ⟨3, 0⟩]) .missing (fun _ => none)).stops
        = false
      ∧ readLastId .missing = 0 ∧ readLastId .invalid = 0 ∧ readLastId (.stored 0) = 0 :=
  scan_news_seeds_marker_when_absent ⟨5, 0⟩ [⟨4, 0⟩, ⟨3, 0⟩] .missing (fun _ => none) rfl

/-- C3 counterexample: in the C1 scenario the marker write (lines 1942–1943) happens
strictly before the first announcement (line 1955), so the marker is not persisted after
the collected articles are emitted, contradicting the claimed order. -/
theorem scan_news_persists_before_emitting_cex :
    (scanNewsIteration (.feed feedC1) (.stored 3) (fun i => some ⟨i⟩)).events
        = [.persistMarker 6, .announce 5, .announce 6, .sleep 7200]
      ∧ (scanNewsIteration (.feed feedC1) (.stored 3)
          (fun i => some ⟨i⟩)).events.indexOf (Event.persistMarker 6)
        < (scanNewsIteration (.feed feedC1) (.stored 3)
          (fun i => some ⟨i⟩)).events.indexOf (Event.announce 5) := by
  constructor <;> decide

/-- C3 (amended): past the seeding path, the newest article's id is persisted
unconditionally — even when zero articles were collected — and the persistence is the
first event of the cycle, so it happens before (not after) the collected articles are
emitted. -/
theorem scan_news_persists_marker_unconditionally
    (first : FeedItem) (rest : List FeedItem) (marker : MarkerRead)
    (getNewsArticle : Int → Option NewsArticle)
    (h : readLastId marker ≠ 0) :
    (scanNewsIteration (.feed (first :: rest)) marker getNewsArticle).events.head?
      = some (.persistMarker first.id) := by
  simp only [scanNewsIteration, feedCycleEvents, if_neg h]
  split <;> rfl

/-- Witness for C3's amended theorem at the C1 scenario. -/
theorem scan_news_persists_marker_unconditionally_witness :
    (scanNewsIteration (.feed (⟨6, 1⟩ :: [⟨5, 2⟩, ⟨4, 9⟩, ⟨3, 10⟩])) (.stored 3)
      (fun i => some ⟨i⟩)).events.head? = some (.persistMarker 6) :=
  scan_news_persists_marker_unconditionally ⟨6, 1⟩ [⟨5, 2⟩, ⟨4, 9⟩, ⟨3, 10⟩] (.stored 3)
    (fun i => some ⟨i⟩) (by decide)

/-- C4 counterexample: an unexpected (non-network, non-cancellation) exception is logged,
but the iteration performs no sleep at all — in particular not the standard 2-hour
sleep — before the loop continues. -/
theorem scan_news_exception_skips_sleep_cex :
    (scanNewsIteration (.raised .other) (.stored 1) (fun _ => none)).events
        = [.logException]
      ∧ Event.sleep 7200 ∉
        (scanNewsIteration (.raised .other) (.stored 1) (fun _ => none)).events
      ∧ (scanNewsIteration (.raised .other) (.stored 1) (fun _ => none)).stops = false := by
  constructor
  · decide
  · constructor <;> decide

/-- C4 (amended): every exception other than explicit cancellation is caught and the
loop continues; a `NetworkError` is not logged and is followed by a 30-second sleep,
any other exception is logged and followed by no sleep, and the iteration breaks the
loop exactly when the exception is a cancellation. -/
theorem scan_news_loop_survives_exceptions
    (marker : MarkerRead) (getNewsArticle : Int → Option NewsArticle) :
    scanNewsIteration (.raised .network) marker getNewsArticle
        = ⟨[.sleep 30], false⟩
      ∧ scanNewsIteration (.raised .other) marker getNewsArticle
        = ⟨[.logException], false⟩
      ∧ ∀ fetch : FetchResult,
          (scanNewsIteration fetch marker getNewsArticle).stops = true
            ↔ fetch = .raised .cancelled := by
  refine ⟨rfl, rfl, fun fetch => ?_⟩
  cases fetch with
  | raised e => cases e <;> simp [scanNewsIteration]
  | noFeed => simp [scanNewsIteration]
  | feed items => cases items <;> simp [scanNewsIteration]

/-- Walking the feed stops at the first item whose id equals the marker: everything at
or past that item is ignored by the collection loop. -/
theorem collectLoop_stops_at_marker (lastId : Int) (fa : Int → Option NewsArticle)
    (x : FeedItem) (hx : x.id = lastId) :
    ∀ (pre suf : List FeedItem) (acc : List NewsArticle),
      collectLoop lastId fa (pre ++ x :: suf) acc = collectLoop lastId fa pre acc := by
  intro pre
  induction pre with
  | nil =>
    intro suf acc
    simp [collectLoop, hx]
  | cons a pre ih =>
    intro suf acc
    simp only [List.cons_append, collectLoop]
    split
    · rfl
    · split
      · rfl
      · split <;> apply ih

/-- Every article produced by the collection loop either was in the accumulator already
or is the successful detail fetch of some walked feed item. -/
theorem mem_collectLoop (lastId : Int) (fa : Int → Option NewsArticle) :
    ∀ (xs : List FeedItem) (acc : List NewsArticle) (art : NewsArticle),
      art ∈ collectLoop lastId fa xs acc →
        art ∈ acc ∨ ∃ item ∈ xs, fa item.id = some art := by
  intro xs
  induction xs with
  | nil =>
    intro acc art h
    exact Or.inl h
  | cons a xs ih =>
    intro acc art h
    rw [collectLoop] at h
    split at h
    · exact Or.inl h
    · split at h
      · exact Or.inl h
      · split at h
        next b heq =>
          rcases ih _ art h with h1 | ⟨item, hmem, hsome⟩
          · rcases List.mem_cons.mp h1 with h2 | h2
            · exact Or.inr ⟨a, List.mem_cons_self _ _, by rw [heq, h2]⟩
            · exact Or.inl h2
          · exact Or.inr ⟨item, List.mem_cons_of_mem _ hmem, hsome⟩
        next heq =>
          rcases ih _ art h with h1 | ⟨item, hmem, hsome⟩
          · exact Or.inl h1
          · exact Or.inr ⟨item, List.mem_cons_of_mem _ hmem, hsome⟩

/-- Past the seeding path, the ids a cycle announces are exactly the ids of the articles
the collection loop gathered, in order. -/
theorem announcedIds_scanNews_feed (items : List FeedItem) (marker : MarkerRead)
    (fa : Int → Option NewsArticle) (hne : items ≠ []) (h : readLastId marker ≠ 0) :
    announcedIds (scanNewsIteration (.feed items) marker fa).events
      = (collectLoop (readLastId marker) fa items []).map (fun a => a.id) := by
  cases items with
  | nil => exact absurd rfl hne
  | cons first rest =>
    show announcedIds (feedCycleEvents first rest marker fa) = _
    simp only [feedCycleEvents, if_neg h]
    split
    · next hempty =>
      rw [List.isEmpty_iff] at hempty
      rw [hempty]
      rfl
    · simp only [announcedIds, List.filterMap_cons, List.filterMap_append, List.filterMap_map]
      simp only [Function.comp_def, List.filterMap_cons, List.filterMap_nil, List.append_nil]
      exact congrFun (List.filterMap_eq_map fun a : NewsArticle => a.id) _

/-- The feed of the C10 scenario: ids 6, 5, 4, all fresh, newest first. -/
def feedC10 : List FeedItem := [⟨6, 1⟩, ⟨5, 2⟩, ⟨4, 3⟩]

/-- C10: with marker 3 and fresh feed ids 6, 5, 4, if the detail fetch of id 5 returns
`None`, the cycle announces only ids 4 and 6 (silently omitting 5) while still
persisting the newest id 6 as the marker; and in any later cycle whose feed, walked
newest-first, reaches an item carrying the marker id before any item with id 5, the
article with id 5 is not announced either. -/
theorem scan_news_drops_unfetchable_article
    (fa : Int → Option NewsArticle)
    (hid : ∀ i a, fa i = some a → a.id = i)
    (h5 : fa 5 = none) (h4 : (fa 4).isSome) (h6 : (fa 6).isSome) :
    ((5 : Int) ∉ announcedIds (scanNewsIteration (.feed feedC10) (.stored 3) fa).events)
    ∧ Event.persistMarker 6 ∈ (scanNewsIteration (.feed feedC10) (.stored 3) fa).events
    ∧ ∀ (pre suf : List FeedItem) (x : FeedItem) (fa2 : Int → Option NewsArticle),
        x.id = 6 → (∀ y ∈ pre, y.id ≠ 5) → (∀ i a, fa2 i = some a → a.id = i) →
        (5 : Int) ∉ announcedIds
          (scanNewsIteration (.feed (pre ++ x :: suf)) (.stored 6) fa2).events := by
  obtain ⟨a4, ha4⟩ := Option.isSome_iff_exists.mp h4
  obtain ⟨a6, ha6⟩ := Option.isSome_iff_exists.mp h6
  have e4 := hid 4 a4 ha4
  have e6 := hid 6 a6 ha6
  refine ⟨?_, ?_, ?_⟩
  · simp [scanNewsIteration, feedCycleEvents, readLastId, collectLoop, feedC10,
      announcedIds, ha4, ha6, h5, e4, e6]
  · simp [scanNewsIteration, feedCycleEvents, readLastId, collectLoop, feedC10,
      ha4, ha6, h5]
  · intro pre suf x fa2 hx hpre hid2
    have hrw := announcedIds_scanNews_feed (pre ++ x :: suf) (.stored 6) fa2
      (by simp) (by decide)
    simp only [readLastId] at hrw
    rw [hrw, collectLoop_stops_at_marker 6 fa2 x hx pre suf []]
    intro hmem
    obtain ⟨art, hart, hart5⟩ := List.mem_map.mp hmem
    rcases mem_collectLoop _ fa2 pre [] art hart with h1 | ⟨item, hitem, hsome⟩
    · exact absurd h1 (List.not_mem_nil art)
    · exact hpre item hitem ((hid2 _ _ hsome) ▸ hart5)

/-- Witness for C10 at a concrete detail fetcher that fails exactly on id 5, and a
concrete later cycle with feed ids 8, 7, 6 (the marker), 5. -/
theorem scan_news_drops_unfetchable_article_witness :
    ((5 : Int) ∉ announcedIds (scanNewsIteration (.feed feedC10) (.stored 3)
        (fun i => if i = 5 then none else some ⟨i⟩)).events)
    ∧ Event.persistMarker 6 ∈ (scanNewsIteration (.feed feedC10) (.stored 3)
        (fun i => if i = 5 then none else some ⟨i⟩)).events
    ∧ (5 : Int) ∉ announcedIds (scanNewsIteration
        (.feed ([⟨8, 0⟩, ⟨7, 0⟩] ++ ⟨6, 5⟩ :: [⟨5, 6⟩])) (.stored 6)
        (fun i => if i = 5 then none else some ⟨i⟩)).events := by
  have hid : ∀ i a, (fun i => if i = 5 then none else some (⟨i⟩ : NewsArticle)) i = some a
      → a.id = i := by
    intro i a h
    have h2 : (if i = 5 then none else some (⟨i⟩ : NewsArticle)) = some a := h
    split at h2
    · exact Option.noConfusion h2
    · injection h2 with h3
      subst h3
      rfl
  obtain ⟨h1, h2, h3⟩ := scan_news_drops_unfetchable_article
    (fun i => if i = 5 then none else some ⟨i⟩) hid (by decide) (by decide) (by decide)
  exact ⟨h1, h2, h3 [⟨8, 0⟩, ⟨7, 0⟩] [⟨5, 6⟩] ⟨6, 5⟩ _ rfl (by decide) hid⟩

/-- Lines 1158–1163: the resting time in seconds for a current stamina of
`hours:minutes`.  `max((40h − current).total_seconds(), 0) * 3` plus
`(42h − max(40h, current)).total_seconds() * 10` plus the fixed 10-minute logoff
delay; every `timedelta` here is a whole number of seconds. -/
def staminaRestingSeconds (hours minutes : Nat) : Int :=
  let current : Int := hours * 3600 + minutes * 60
  3 * max (40 * 3600 - current) 0
    + 10 * (42 * 3600 - max (40 * 3600) current)
    + 10 * 60

/-- The observable outcome of the `stamina` command on a parsed `hh:mm` input:
the minutes-too-large rejection (line 1149), the over-42-hours rejection
(line 1153), the already-full reply (line 1156), or the resting time rendered as
whole hours and minutes (lines 1165–1166, `divmod(int(resting_time), 3600)` then
`divmod(remainder, 60)` discarding seconds). -/
inductive StaminaOutcome where
  | invalidMinutes
  | overCap
  | full
  | rest (hours minutes : Nat)
  deriving Repr, DecidableEq

/-- Lines 1146–1170 of the `stamina` command, after the regex has produced the
`hours` and `minutes` integers. -/
def stamina (hours minutes : Nat) : StaminaOutcome :=
  if 60 ≤ minutes then .invalidMinutes
  else if 42 < hours ∨ (hours = 42 ∧ 0 < minutes) then .overCap
  else if hours = 42 then .full
  else
    let total := (staminaRestingSeconds hours minutes).toNat
    .rest (total / 3600) (total % 3600 / 60)

/-- The spec's resting-time formula, in minutes of a current stamina of `c` minutes:
3 minutes of rest per missing minute below the 40-hour mark, 10 per missing minute
between 40 h and the 42-hour cap, plus the fixed 10-minute settling delay. -/
def specRestingMinutes (c : Nat) : Nat :=
  3 * max (40 * 60 - c) 0 + 10 * (42 * 60 - max (40 * 60) c) + 10

/-- C5: for every stamina value below the 42-hour cap with a valid minutes component,
the command reports the resting time `3·max(40:00 − c, 0) + 10·(42:00 − max(40:00, c))
+ 10 min`, rendered as whole hours and minutes rounded down. -/
theorem stamina_resting_time_formula (hours minutes : Nat)
    (hm : minutes < 60) (hh : hours < 42) :
    stamina hours minutes
      = .rest (specRestingMinutes (60 * hours + minutes) / 60)
             (specRestingMinutes (60 * hours + minutes) % 60) := by
  have h1 : ¬ 60 ≤ minutes := by omega
  have h2 : ¬ (42 < hours ∨ (hours = 42 ∧ 0 < minutes)) := by omega
  have h3 : hours ≠ 42 := by omega
  simp only [stamina, if_neg h1, if_neg h2, if_neg h3]
  have key : (staminaRestingSeconds hours minutes).toNat
      = 60 * specRestingMinutes (60 * hours + minutes) := by
    simp only [staminaRestingSeconds, specRestingMinutes]
    rcases le_or_lt (60 * hours + minutes) 2400 with hc | hc
    · rw [max_eq_left (a := (40 * 3600 : Int)) (by push_cast; omega),
        max_eq_left (a := (40 * 60 : Nat)) (by omega),
        max_eq_left (by push_cast; omega)]
      omega
    · rw [max_eq_right (b := ((hours : Int) * 3600 + (minutes : Int) * 60)) (by omega),
        max_eq_right (b := (60 * hours + minutes)) (by omega)]
      have hz : (40 * 3600 : Int) - ((hours : Int) * 3600 + (minutes : Int) * 60) ≤ 0 := by
        omega
      rw [max_eq_right hz]
      omega
  rw [key]
  congr 1 <;> omega

/-- Witness for C5 at stamina 39:15 — 45 missing minutes below 40 h and the full
120-minute tail give 3·45 + 10·120 + 10 = 1345 minutes, i.e. 22 hours 25 minutes. -/
theorem stamina_resting_time_formula_witness :
    stamina 39 15
      = .rest (specRestingMinutes (60 * 39 + 15) / 60)
             (specRestingMinutes (60 * 39 + 15) % 60)
      ∧ stamina 39 15 = .rest 22 25 :=
  ⟨stamina_resting_time_formula 39 15 (by decide) (by decide), by decide⟩

/-- C6: the command rejects every parsed input with a minutes component of 60 or more
and every parsed duration strictly above 42:00 with one of its two invalid-input
replies, and at exactly 42:00 it answers that stamina is already full, performing no
resting-time computation (so no 10-minute settling delay is added). -/
theorem stamina_rejects_out_of_range :
    (∀ hours minutes : Nat, 60 ≤ minutes → stamina hours minutes = .invalidMinutes)
    ∧ (∀ hours minutes : Nat, 42 * 60 < 60 * hours + minutes →
        stamina hours minutes = .invalidMinutes ∨ stamina hours minutes = .overCap)
    ∧ stamina 42 0 = .full := by
  refine ⟨fun hours minutes h => ?_, fun hours minutes h => ?_, by decide⟩
  · simp [stamina, h]
  · rcases le_or_lt 60 minutes with hm | hm
    · exact Or.inl (by simp [stamina, hm])
    · refine Or.inr ?_
      have h1 : ¬ 60 ≤ minutes := by omega
      have h2 : 42 < hours ∨ (hours = 42 ∧ 0 < minutes) := by omega
      simp [stamina, h1, h2]

/-- Witness for C6: 10:75 is rejected for its minutes, 43:00 for exceeding the cap,
and 42:00 answers that stamina is already full. -/
theorem stamina_rejects_out_of_range_witness :
    stamina 10 75 = .invalidMinutes
    ∧ (stamina 43 0 = .invalidMinutes ∨ stamina 43 0 = .overCap)
    ∧ stamina 42 0 = .full :=
  ⟨stamina_rejects_out_of_range.1 10 75 (by decide),
   stamina_rejects_out_of_range.2.1 43 0 (by decide),
   stamina_rejects_out_of_range.2.2⟩

/-- The observable outcome of the level checks of the `stats` command
(lines 1230–1240): the too-low rejection, the too-high rejection, or the call
`get_stats(level, vocation)` with the unmodified level. -/
inductive StatsOutcome where
  | rejectLow
  | rejectHigh
  | invoke (level : Int)
  deriving Repr, DecidableEq

/-- Lines 1230–1237: `if level <= 0`, then `if level >= 2000`, then
`get_stats(level, vocation)`. -/
def statsLevelGate (level : Int) : StatsOutcome :=
  if level ≤ 0 then .rejectLow
  else if 2000 ≤ level then .rejectHigh
  else .invoke level

/-- C8: the `stats` command rejects every level strictly below 1 and every level at
or above 2000, and it reaches the stat formulas exactly for levels 1..1999, passing
the level through unclamped. -/
theorem stats_level_bounds :
    (∀ level : Int, level < 1 → statsLevelGate level = .rejectLow)
    ∧ (∀ level : Int, 2000 ≤ level → statsLevelGate level = .rejectHigh)
    ∧ (∀ level : Int,
        (∃ passed, statsLevelGate level = .invoke passed) ↔ 1 ≤ level ∧ level ≤ 1999)
    ∧ (∀ level passed : Int, statsLevelGate level = .invoke passed → passed = level) := by
  refine ⟨fun level h => ?_, fun level h => ?_, fun level => ?_, fun level passed h => ?_⟩
  · simp [statsLevelGate, show level ≤ 0 by omega]
  · have h0 : ¬ level ≤ 0 := by omega
    simp [statsLevelGate, h0, h]
  · constructor
    · rintro ⟨passed, hp⟩
      by_contra hrange
      have : level ≤ 0 ∨ 2000 ≤ level := by omega
      rcases this with h1 | h1
      · simp [statsLevelGate, h1] at hp
      · have h0 : ¬ level ≤ 0 := by omega
        simp [statsLevelGate, h0, h1] at hp
    · intro ⟨h1, h2⟩
      refine ⟨level, ?_⟩
      rw [statsLevelGate, if_neg (by omega), if_neg (by omega)]
  · unfold statsLevelGate at h
    split at h
    · exact StatsOutcome.noConfusion h
    · split at h
      · exact StatsOutcome.noConfusion h
      · injection h with h2
        exact h2.symm

/-- Witness for C8 at levels 0, 2000 and 150. -/
theorem stats_level_bounds_witness :
    statsLevelGate 0 = .rejectLow
    ∧ statsLevelGate 2000 = .rejectHigh
    ∧ ((∃ passed, statsLevelGate 150 = .invoke passed) ↔ 1 ≤ (150 : Int) ∧ (150 : Int) ≤ 1999)
    ∧ (statsLevelGate 150 = .invoke 150 → (150 : Int) = 150) :=
  ⟨stats_level_bounds.1 0 (by decide),
   stats_level_bounds.2.1 2000 (by decide),
   stats_level_bounds.2.2.1 150,
   stats_level_bounds.2.2.2 150 150⟩

/-- Modelled from the spec: `get_share_range` is imported from `utils.tibia`, which is
not part of this repository snapshot.  Spec §4.1: `high = level + floor(level·X)` and
`low = level − floor(level·Y)` with the Tibia share constants `X = 1/2`, `Y = 1/3`, and
`low` clamped so that `low ≥ 1`. -/
def get_share_range (level : Nat) : Nat × Nat :=
  (max (level - level / 3) 1, level + level / 2)

/-- The reply of the `share` command for several characters (lines 1118–1130): either
the lowest character needs some levels to enter range, or the joint range. -/
inductive ShareOutcome where
  | needs (count : Int)
  | range (low high : Nat)
  deriving Repr, DecidableEq

/-- Lines 1110–1130 of the `share` command: sort the characters by level ascending,
take `low` from the highest character's band and `high` from the lowest character's
band; if `low` exceeds the lowest level, report the missing levels `low − lowest`,
otherwise report the joint range. `none` only for an empty group, which the command
cannot produce. -/
def shareJoint (levels : List Nat) : Option ShareOutcome :=
  match List.insertionSort (· ≤ ·) levels with
  | [] => none
  | lowest :: rest =>
    let highest := rest.getLastD lowest
    let low := (get_share_range highest).1
    let high := (get_share_range lowest).2
    if lowest < low then some (.needs ((low : Int) - lowest))
    else some (.range low high)

/-- The last element of a nonempty list (as `getLastD` over its tail) is one of its
elements. -/
theorem getLastD_mem_cons : ∀ (rest : List Nat) (a : Nat), rest.getLastD a ∈ a :: rest
  | [], a => List.mem_cons_self a []
  | b :: t, a => by
    rw [List.getLastD_cons]
    exact List.mem_cons_of_mem a (getLastD_mem_cons t b)

/-- In a sorted list every element is at most the last element. -/
theorem sorted_le_getLastD : ∀ (rest : List Nat) (a x : Nat),
    (a :: rest).Sorted (· ≤ ·) → x ∈ a :: rest → x ≤ rest.getLastD a
  | [], a, x, _, hx => by
    rw [List.mem_singleton] at hx
    rw [hx, List.getLastD_nil]
  | b :: t, a, x, hs, hx => by
    rw [List.getLastD_cons]
    rcases List.mem_cons.mp hx with h1 | h1
    · have hab : a ≤ b := (List.rel_of_sorted_cons hs) b (List.mem_cons_self b t)
      have hb := sorted_le_getLastD t b b hs.of_cons (List.mem_cons_self b t)
      omega
    · exact sorted_le_getLastD t b x hs.of_cons h1

/-- C7: for every group of 2 to 5 levels with minimum `lo` and maximum `hi`, the share
command computes the joint band as (low bound of the highest character's range, high
bound of the lowest character's range), and when that low bound strictly exceeds the
lowest level it instead reports that the lowest character needs exactly that low bound
minus the lowest level more levels. -/
theorem share_joint_range (levels : List Nat) (lo hi : Nat)
    (h2 : 2 ≤ levels.length) (h5 : levels.length ≤ 5)
    (hlo : lo ∈ levels) (hhi : hi ∈ levels)
    (hbound : ∀ x ∈ levels, lo ≤ x ∧ x ≤ hi) :
    shareJoint levels
      = if lo < (get_share_range hi).1
        then some (.needs (((get_share_range hi).1 : Int) - lo))
        else some (.range (get_share_range hi).1 (get_share_range lo).2) := by
  have hperm := List.perm_insertionSort (· ≤ ·) levels
  have hsort := List.sorted_insertionSort (· ≤ ·) levels
  cases hs : List.insertionSort (· ≤ ·) levels with
  | nil =>
    exfalso
    have hlen := List.length_insertionSort (· ≤ ·) levels
    rw [hs] at hlen
    simp at hlen
    omega
  | cons lowest rest =>
    rw [hs] at hperm hsort
    have hmemlow : lowest ∈ levels := hperm.mem_iff.mp (List.mem_cons_self _ _)
    have hlo_mem : lo ∈ lowest :: rest := hperm.mem_iff.mpr hlo
    have h_lo_le : lo ≤ lowest := (hbound lowest hmemlow).1
    have h_le_lo : lowest ≤ lo := by
      rcases List.mem_cons.mp hlo_mem with h | h
      · omega
      · exact (List.rel_of_sorted_cons hsort) lo h
    have hlow : lowest = lo := le_antisymm h_le_lo h_lo_le
    have hlast_mem : rest.getLastD lowest ∈ levels :=
      hperm.mem_iff.mp (getLastD_mem_cons rest lowest)
    have h_hi_le : hi ≤ rest.getLastD lowest :=
      sorted_le_getLastD rest lowest hi hsort (hperm.mem_iff.mpr hhi)
    have h_le_hi : rest.getLastD lowest ≤ hi := (hbound _ hlast_mem).2
    have hhigh : rest.getLastD lowest = hi := le_antisymm h_le_hi h_hi_le
    rw [hlow] at hhigh
    simp only [shareJoint, hs, hlow, hhigh]

/-- Witness for C7: levels 100 and 20 — level 100 shares from 67 up, so the level-20
character needs 47 more levels. -/
theorem share_joint_range_witness :
    shareJoint [100, 20] = some (.needs 47) := by
  have h := share_joint_range [100, 20] 20 100 (by decide) (by decide) (by decide)
    (by decide) (by decide)
  rw [h]
  decide

/-- Outcome of `channel.send` for one destination (lines 1954–1960): success, or the
`discord.Forbidden` / `discord.HTTPException` failures the handler catches. -/
inductive DeliveryResult where
  | success
  | forbidden
  | httpError
  deriving Repr, DecidableEq

/-- A guild as seen by the announce loop: its id and its configured news channel,
`0` meaning none (line 1950's default). -/
structure GuildConf where
  gid : Int
  newsChannel : Int
  deriving Repr, DecidableEq

/-- Observable events of the announce loop: a `channel.send` attempt for one article at
one guild, and the warning logged when that attempt fails. -/
inductive DeliveryEvent where
  | send (articleId : Int) (gid : Int)
  | logWarning (gid : Int)
  deriving Repr, DecidableEq

/-- Lines 1949–1960 for a single guild: skip guilds without a news channel, otherwise
attempt the send; a `Forbidden` or `HTTPException` outcome is logged and swallowed. -/
def deliverToGuild (deliver : Int → Int → DeliveryResult) (articleId : Int)
    (g : GuildConf) : List DeliveryEvent :=
  if g.newsChannel = 0 then []
  else
    match deliver articleId g.gid with
    | .success => [.send articleId g.gid]
    | .forbidden => [.send articleId g.gid, .logWarning g.gid]
    | .httpError => [.send articleId g.gid, .logWarning g.gid]

/-- Lines 1947–1960: the announce loop over the batch of new articles and, for each
article, over all guilds. -/
def announceBatch (deliver : Int → Int → DeliveryResult) (articleIds : List Int)
    (guilds : List GuildConf) : List DeliveryEvent :=
  articleIds.flatMap fun aid => guilds.flatMap (deliverToGuild deliver aid)

/-- The send attempts of a delivery-event sequence. -/
def sendEvents (evs : List DeliveryEvent) : List DeliveryEvent :=
  evs.filter fun e =>
    match e with
    | .send _ _ => true
    | _ => false

/-- For one article, the send attempts are one per configured guild, whatever the
delivery outcomes are. -/
theorem sendEvents_deliver_all (deliver : Int → Int → DeliveryResult) (aid : Int) :
    ∀ guilds : List GuildConf,
      sendEvents (guilds.flatMap (deliverToGuild deliver aid))
        = (guilds.filter fun g => !(g.newsChannel == 0)).map
            fun g => .send aid g.gid := by
  intro guilds
  induction guilds with
  | nil => rfl
  | cons g gs ih =>
    simp only [List.flatMap_cons, List.filter_cons, sendEvents, List.filter_append]
    show sendEvents (deliverToGuild deliver aid g) ++ sendEvents (gs.flatMap _) = _
    rw [ih]
    by_cases hg : g.newsChannel = 0
    · simp [deliverToGuild, hg, sendEvents]
    · have hb : (g.newsChannel == 0) = false := by simpa using hg
      simp only [hb, Bool.not_false, cond_true, List.map_cons]
      rw [deliverToGuild, if_neg hg]
      cases deliver aid g.gid <;> rfl

/-- C9: a delivery failure at one destination is logged and skipped: the sequence of
send attempts of the whole batch is one attempt per (article, configured guild) pair,
independent of which deliveries fail, so a failure prevents neither the remaining
destinations of the same article nor the remaining articles; and every failed attempt
at a configured guild logs a warning. -/
theorem announce_batch_failures_isolated
    (deliver : Int → Int → DeliveryResult) (articleIds : List Int)
    (guilds : List GuildConf) :
    sendEvents (announceBatch deliver articleIds guilds)
      = articleIds.flatMap
          (fun aid => (guilds.filter fun g => !(g.newsChannel == 0)).map
            fun g => .send aid g.gid)
    ∧ ∀ aid ∈ articleIds, ∀ g ∈ guilds, g.newsChannel ≠ 0 →
        deliver aid g.gid ≠ .success →
        DeliveryEvent.logWarning g.gid ∈ announceBatch deliver articleIds guilds := by
  constructor
  · induction articleIds with
    | nil => rfl
    | cons aid aids ih =>
      simp only [announceBatch, List.flatMap_cons, sendEvents, List.filter_append]
      show sendEvents _ ++ sendEvents (announceBatch deliver aids guilds) = _
      rw [ih, sendEvents_deliver_all]
  · intro aid haid g hg hchan hfail
    have hmem : DeliveryEvent.logWarning g.gid ∈ deliverToGuild deliver aid g := by
      rw [deliverToGuild, if_neg hchan]
      cases hd : deliver aid g.gid
      · exact absurd hd hfail
      · simp
      · simp
    exact List.mem_flatMap.mpr ⟨aid, haid,
      List.mem_flatMap.mpr ⟨g, hg, hmem⟩⟩

/-- Witness for C9: two articles, two configured guilds, every delivery failing with
`Forbidden` — all four sends are still attempted and the failures are logged. -/
theorem announce_batch_failures_isolated_witness :
    sendEvents (announceBatch (fun _ _ => .forbidden) [1, 2] [⟨10, 5⟩, ⟨11, 7⟩])
      = [1, 2].flatMap
          (fun aid => ([⟨10, 5⟩, ⟨11, 7⟩].filter
            fun g : GuildConf => !(g.newsChannel == 0)).map
            fun g => .send aid g.gid)
    ∧ DeliveryEvent.logWarning 10
        ∈ announceBatch (fun _ _ => .forbidden) [1, 2] [⟨10, 5⟩, ⟨11, 7⟩] := by
  obtain ⟨h1, h2⟩ := announce_batch_failures_isolated (fun _ _ => .forbidden) [1, 2]
    [⟨10, 5⟩, ⟨11, 7⟩]
  exact ⟨h1, h2 1 (by decide) ⟨10, 5⟩ (by decide) (by decide) (by decide)⟩

end NabBot
